import Mathlib

/-!
Shallow embedding of `spritemap_explode.go` and verification of its
natural-language specification.

The program slices a sprite-map image into per-frame PNG files.  We embed the
data model of Go's `image` package as far as the program uses it: rectangles
with `Min`/`Max` corners, images as a bounding rectangle plus a pixel store,
`At`/`Set`/`SubImage` with their bounds behaviour, and the program's own
functions (`imageEmpty`, `imageMirrorY`, `args` accessors, the filename
format, `explode`, `saveImage`, `main`).  Machine integers (`Go int`) are
modelled as `Int`; the quantities involved stay far below 2^63, so no
wrap-around modelling is needed.  `uint` flag values are modelled as `Nat`.
-/

set_option autoImplicit false

/-- Pixel colour as stored by the image buffers the program manipulates
(NRGBA channels).  The program observes colours only through `RGBA()`, whose
16-bit alpha result is zero exactly when the stored alpha `a` is zero. -/
structure Color where
  r : Nat
  g : Nat
  b : Nat
  a : Nat
deriving DecidableEq

/-- The zero colour, returned by Go's `At` for points outside an image's
bounds and stored in every pixel of a freshly allocated `image.NewNRGBA`. -/
def zeroColor : Color := ⟨0, 0, 0, 0⟩

/-- Embedding of Go `image.Rectangle`: the rectangle `[minX, maxX) × [minY, maxY)`. -/
structure Rect where
  minX : Int
  minY : Int
  maxX : Int
  maxY : Int
deriving DecidableEq

/-- Membership of the point `(x, y)` in a rectangle (Go `Point.In`). -/
def inRect (r : Rect) (x y : Int) : Prop :=
  r.minX ≤ x ∧ x < r.maxX ∧ r.minY ≤ y ∧ y < r.maxY

instance instDecidableInRect (r : Rect) (x y : Int) : Decidable (inRect r x y) := by
  unfold inRect; infer_instance

/-- Embedding of Go `Rectangle.Empty`: `Min.X >= Max.X || Min.Y >= Max.Y`. -/
def Rect.isEmpty (r : Rect) : Prop :=
  r.maxX ≤ r.minX ∨ r.maxY ≤ r.minY

instance instDecidableRectIsEmpty (r : Rect) : Decidable r.isEmpty := by
  unfold Rect.isEmpty; infer_instance

/-- Embedding of Go `image.Rect(x0, y0, x1, y1)`, which swaps coordinates so
that `Min ≤ Max` holds componentwise. -/
def mkRect (x0 y0 x1 y1 : Int) : Rect :=
  ⟨min x0 x1, min y0 y1, max x0 x1, max y0 y1⟩

/-- Embedding of Go `Rectangle.Intersect`: clip to the common area and return
the zero rectangle `ZR` when the result is empty. -/
def rectIntersect (r s : Rect) : Rect :=
  let t : Rect := ⟨max r.minX s.minX, max r.minY s.minY, min r.maxX s.maxX, min r.maxY s.maxY⟩
  if t.isEmpty then ⟨0, 0, 0, 0⟩ else t

/-- An image: a bounding rectangle plus the raw pixel store.  `pix` is total;
only its values on `rect` are ever exposed by `At`. -/
structure Image where
  rect : Rect
  pix : Int → Int → Color

/-- Embedding of Go `img.At(x, y)` for the concrete image types the program
uses: the stored pixel inside the bounds, the zero colour outside. -/
def Image.At (img : Image) (x y : Int) : Color :=
  if inRect img.rect x y then img.pix x y else zeroColor

/-- Embedding of Go `img.Set(x, y, c)` on an NRGBA image: stores the colour
when the point is inside the bounds and is a no-op otherwise. -/
def Image.setPix (img : Image) (x y : Int) (c : Color) : Image :=
  if inRect img.rect x y then
    { img with pix := fun u v => if u = x ∧ v = y then c else img.pix u v }
  else img

/-- Embedding of Go `img.SubImage(r)` for the concrete image types the
program uses: intersect `r` with the image bounds; when the intersection is
empty return the zero-value image (whose `At` is everywhere zero), otherwise
a view sharing the pixel store, bounded to the intersection. -/
def subImage (img : Image) (r : Rect) : Image :=
  let ri := rectIntersect r img.rect
  if ri.isEmpty then { rect := ⟨0, 0, 0, 0⟩, pix := fun _ _ => zeroColor }
  else { rect := ri, pix := img.pix }

/-- The list `[lo, lo+1, …, hi-1]`, the values taken by a Go loop
`for i := lo; i < hi; i++`. -/
def intRange (lo hi : Int) : List Int :=
  (List.range (hi - lo).toNat).map (fun (i : Nat) => lo + (i : Int))

theorem mem_intRange {lo hi a : Int} : a ∈ intRange lo hi ↔ lo ≤ a ∧ a < hi := by
  unfold intRange
  simp only [List.mem_map, List.mem_range]
  constructor
  · rintro ⟨i, hlt, rfl⟩; omega
  · intro h; exact ⟨(a - lo).toNat, by omega, by omega⟩

/-- Embedding of `imageEmpty`: scan `x` from `0` (not from `Bounds().Min.X`)
up to `Bounds().Max.X`, and `y` likewise, returning `false` at the first
pixel whose `RGBA()` alpha is non-zero (`List.all` short-circuits exactly
like the loop's early `return false`). -/
def imageEmpty (img : Image) : Bool :=
  (intRange 0 img.rect.maxX).all fun x =>
    (intRange 0 img.rect.maxY).all fun y =>
      (img.At x y).a == 0

/-- The prefix of a list up to and including the first element satisfying
`p`; the whole list when no element does. -/
def takeThrough {α : Type} (p : α → Bool) : List α → List α
  | [] => []
  | a :: l => if p a then [a] else a :: takeThrough p l

/-- The pixel coordinates the `imageEmpty` loops read, in loop order
(all `(x, y)` with `0 ≤ x < Max.X`, `0 ≤ y < Max.Y`, column-major). -/
def scanOrder (img : Image) : List (Int × Int) :=
  (intRange 0 img.rect.maxX).flatMap fun x =>
    (intRange 0 img.rect.maxY).map fun y => (x, y)

/-- The pixels actually visited by `imageEmpty` before it returns: the scan
order cut off at the first pixel with non-zero alpha (inclusive), since the
loop returns `false` there. -/
def imageEmptyVisited (img : Image) : List (Int × Int) :=
  takeThrough (fun p => (img.At p.1 p.2).a != 0) (scanOrder img)

example : imageEmpty { rect := ⟨0, 0, 2, 2⟩, pix := fun _ _ => zeroColor } = true := by decide
example : imageEmpty { rect := ⟨0, 0, 2, 2⟩, pix := fun _ _ => ⟨1, 1, 1, 1⟩ } = false := by decide

/-- Inner loop of `imageMirrorY`: copy source column `x` into column `mx` of
the accumulator image, for every row of the source bounds. -/
def mirrorSetCol (src : Image) (x mx : Int) (acc : Image) : Image :=
  (intRange src.rect.minY src.rect.maxY).foldl
    (fun a2 y => a2.setPix mx y (src.At x y)) acc

/-- Embedding of `imageMirrorY`: `mirrorImg := image.NewNRGBA(img.Bounds())`
(every pixel zero); `mx` starts at `Max.X` and is decremented before each
column is copied, so source column `x` lands in column
`mx = Max.X - 1 - (x - Min.X) = Min.X + Max.X - 1 - x`. -/
def imageMirrorY (img : Image) : Image :=
  (intRange img.rect.minX img.rect.maxX).foldl
    (fun acc x => mirrorSetCol img x (img.rect.minX + img.rect.maxX - 1 - x) acc)
    { rect := img.rect, pix := fun _ _ => zeroColor }

/-- The decimal digit characters. -/
def digitChar (d : Nat) : Char :=
  if d = 0 then '0'
  else if d = 1 then '1'
  else if d = 2 then '2'
  else if d = 3 then '3'
  else if d = 4 then '4'
  else if d = 5 then '5'
  else if d = 6 then '6'
  else if d = 7 then '7'
  else if d = 8 then '8'
  else '9'

/-- Decimal digits of `n`, most significant first, computed with explicit
fuel so that the definition is structurally recursive (the fuel `n` is always
sufficient, see `natDigitsFuel_decValue`). -/
def natDigitsFuel : Nat → Nat → List Char
  | 0, n => [digitChar n]
  | f + 1, n => if n < 10 then [digitChar n] else natDigitsFuel f (n / 10) ++ [digitChar (n % 10)]

/-- Decimal representation of `n` (what Go's `%d` prints for a nonnegative
value). -/
def natDigits (n : Nat) : List Char := natDigitsFuel n n

/-- Embedding of the `%0*d` verb for a nonnegative value: the decimal digits,
left-padded with zeros to the field width (never truncated). -/
def pad0 (w : Nat) (n : Nat) : List Char :=
  List.replicate (w - (natDigits n).length) '0' ++ natDigits n

example : pad0 3 7 = ['0', '0', '7'] := by decide
example : pad0 0 12 = ['1', '2'] := by decide

/-- Numeric value of a digit character ('0'..'9'). -/
def digitVal (c : Char) : Nat :=
  if c = '0' then 0
  else if c = '1' then 1
  else if c = '2' then 2
  else if c = '3' then 3
  else if c = '4' then 4
  else if c = '5' then 5
  else if c = '6' then 6
  else if c = '7' then 7
  else if c = '8' then 8
  else 9

/-- Value of a digit string read left to right. -/
def decValue (cs : List Char) : Nat :=
  cs.foldl (fun acc c => 10 * acc + digitVal c) 0

/-- `ceil(log10 n)` with explicit fuel (the fuel `n` is always sufficient,
see `ceilLog10_le_pow` and `ceilLog10_min`). -/
def ceilLog10Fuel : Nat → Nat → Nat
  | 0, _ => 0
  | f + 1, n => if n ≤ 1 then 0 else 1 + ceilLog10Fuel f ((n + 9) / 10)

/-- Embedding of `int(math.Ceil(math.Log10(float64(n))))` for `n ≥ 1`: the
least `d` with `n ≤ 10 ^ d` (the float computation is modelled by exact real
arithmetic). -/
def ceilLog10 (n : Nat) : Nat := ceilLog10Fuel n n

example : ceilLog10 1 = 0 := by decide
example : ceilLog10 2 = 1 := by decide
example : ceilLog10 10 = 1 := by decide
example : ceilLog10 11 = 2 := by decide
example : ceilLog10 12 = 2 := by decide
example : ceilLog10 100 = 2 := by decide

/-- The ".png" suffix of every output filename. -/
def pngExt : List Char := ['.', 'p', 'n', 'g']

/-- Result of `fmt.Sprintf` on the non-mirror format
`"%s-%0Yd-%0Xd.png"` built by `args.FrameFilenameFormat`, applied to
`(prefix, row, column)`. -/
def frameFilename (pfx : List Char) (yD xD : Nat) (row col : Nat) : List Char :=
  pfx ++ '-' :: (pad0 yD row ++ '-' :: (pad0 xD col ++ pngExt))

/-- Result of `fmt.Sprintf` on the mirror format `"%s-%s-%0Yd-%0Xd.png"`
(the side-marker field sits immediately after the prefix, before the row and
column fields), applied to `(prefix, side, row, column)` where the side
marker is the one-character string "l" or "r". -/
def frameFilenameMirror (pfx : List Char) (yD xD : Nat) (side : Char) (row col : Nat) : List Char :=
  pfx ++ '-' :: side :: '-' :: (pad0 yD row ++ '-' :: (pad0 xD col ++ pngExt))

example : frameFilename "img".toList 0 1 0 0 = "img-0-0.png".toList := by decide
example : frameFilenameMirror "img".toList 0 1 'r' 0 0 = "img-r-0-0.png".toList := by decide

/-- Embedding of the `args` struct (the command-line configuration).
`Prefix` is called `pfx` here; `Filename` and `Suffix` play no role after
parsing and are omitted. -/
structure Args where
  pfx : List Char
  frameWidth : Nat
  frameHeight : Nat
  columns : Nat
  rows : Nat
  mirrorLeft : Bool

/-- Embedding of `args.ImageColumns`: the explicit `-columns` value, or the
image width divided by the frame width (Go integer division; both operands
are nonnegative here, where `/` agrees with Go's truncated division). -/
def imageColumns (a : Args) (img : Image) : Int :=
  if a.columns ≠ 0 then (a.columns : Int) else img.rect.maxX / (a.frameWidth : Int)

/-- Embedding of `args.ImageRows`. -/
def imageRows (a : Args) (img : Image) : Int :=
  if a.rows ≠ 0 then (a.rows : Int) else img.rect.maxY / (a.frameHeight : Int)

/-- Embedding of `args.ImageFrameWidth`. -/
def imageFrameWidth (a : Args) (img : Image) : Int :=
  if a.frameWidth ≠ 0 then (a.frameWidth : Int) else img.rect.maxX / (a.columns : Int)

/-- Embedding of `args.ImageFrameHeight`. -/
def imageFrameHeight (a : Args) (img : Image) : Int :=
  if a.frameHeight ≠ 0 then (a.frameHeight : Int) else img.rect.maxY / (a.rows : Int)

/-- One call of `saveImage(img, filename)` requested by `explode`. -/
structure SaveCall where
  filename : List Char
  image : Image

/-- Body of the `explode` double loop for grid cell `(row, column)`: crop the
frame, skip it when `imageEmpty` holds, otherwise emit one save call (or an
original/mirrored pair when `-mirror-left` is set).  Loop indices are
nonnegative, so `%d` prints `row.toNat`/`col.toNat`. -/
def explodeCell (a : Args) (img : Image) (frameWidth frameHeight : Int) (yD xD : Nat)
    (row col : Int) : List SaveCall :=
  let x := col * frameWidth
  let y := row * frameHeight
  let sub := subImage img (mkRect x y (x + frameWidth) (y + frameHeight))
  if imageEmpty sub then []
  else if a.mirrorLeft then
    [⟨frameFilenameMirror a.pfx yD xD 'r' row.toNat col.toNat, sub⟩,
     ⟨frameFilenameMirror a.pfx yD xD 'l' row.toNat col.toNat, imageMirrorY sub⟩]
  else
    [⟨frameFilename a.pfx yD xD row.toNat col.toNat, sub⟩]

/-- Embedding of `explode`: frame geometry and the filename format (hence
the two field widths) are computed once, then the grid is walked row-major;
the result is the sequence of `saveImage` calls the run performs. -/
def explode (a : Args) (img : Image) : List SaveCall :=
  let frameWidth := imageFrameWidth a img
  let frameHeight := imageFrameHeight a img
  let columns := imageColumns a img
  let rows := imageRows a img
  let yD := ceilLog10 (imageRows a img).toNat
  let xD := ceilLog10 (imageColumns a img).toNat
  (intRange 0 rows).flatMap fun row =>
    (intRange 0 columns).flatMap fun col =>
      explodeCell a img frameWidth frameHeight yD xD row col

/-- The messages the program can print to the error stream (besides the
run-time error text of a Go panic). -/
inductive ErrOut where
  | usage
  | msgNeedHeightRows
  | msgNeedWidthColumns
  | msgCannotOpen
  | msgCannotDecode
  | msgNoSubImage
deriving DecidableEq

/-- Embedding of the validation part of `args.parse` (after flag parsing):
the returned Bool and the sequence of items printed to the error stream.
Note that the `-width`/`-columns` branch prints its message but, unlike the
`-height`/`-rows` branch, does not call `flag.Usage()`. -/
def parseChecks (nArg : Nat) (a : Args) : Bool × List ErrOut :=
  if nArg ≠ 1 then (false, [ErrOut.usage])
  else if a.frameHeight = 0 ∧ a.rows = 0 then (false, [ErrOut.msgNeedHeightRows, ErrOut.usage])
  else if a.frameWidth = 0 ∧ a.columns = 0 then (false, [ErrOut.msgNeedWidthColumns])
  else (true, [])

/-- A successfully decoded image together with whether its dynamic type
implements the `SpriteMap` interface (i.e. has a `SubImage` method). -/
structure Decoded where
  image : Image
  supportsSubImage : Bool

/-- Go single-result interface type assertion `img.(SpriteMap)`: yields the
interface value when the dynamic type implements `SpriteMap`, and panics
(run-time error, not a nil result) otherwise.  A successful assertion on the
non-nil result of `image.Decode` is never nil, hence always `some`. -/
def typeAssertSpriteMap (d : Decoded) : Except Unit (Option Image) :=
  if d.supportsSubImage then Except.ok (some d.image) else Except.error ()

/-- How a run of `main` ends. -/
inductive RunOutcome where
  | exited (code : Nat)
  | panicked
  | completed (saves : List SaveCall)

/-- The external circumstances of one invocation of the program: the
positional-argument count, the parsed flags, whether the source file opens,
whether it decodes, and the decoded image. -/
structure ProcInput where
  nArg : Nat
  a : Args
  openOk : Bool
  decodeOk : Bool
  decoded : Decoded

/-- Embedding of `main`: parse (exit 1 on failure), open (exit 2 on
failure), decode (exit 3 on failure), assert `SpriteMap` (a Go panic when
unsupported), the `spriteMap == nil` check (exit 4 — reached only were the
assertion to yield nil), then `explode`. -/
def runMain (inp : ProcInput) : RunOutcome × List ErrOut :=
  match parseChecks inp.nArg inp.a with
  | (false, errs) => (RunOutcome.exited 1, errs)
  | (true, errs) =>
    if inp.openOk = false then (RunOutcome.exited 2, errs ++ [ErrOut.msgCannotOpen])
    else if inp.decodeOk = false then (RunOutcome.exited 3, errs ++ [ErrOut.msgCannotDecode])
    else
      match typeAssertSpriteMap inp.decoded with
      | Except.error _ => (RunOutcome.panicked, errs)
      | Except.ok none => (RunOutcome.exited 4, errs ++ [ErrOut.msgNoSubImage])
      | Except.ok (some sm) => (RunOutcome.completed (explode inp.a sm), errs)

/-- Fault model for one output file: `os.Create` fails, `png.Encode` fails,
or both succeed. -/
inductive FileFate where
  | createFail
  | encodeFail
  | ok
deriving DecidableEq

/-- Observable file-system and error-stream events of `saveImage`. -/
inductive FsEvent where
  | fileCreated (name : List Char)
  | fileRemoved (name : List Char)
  | msgCannotCreate (name : List Char)
  | msgCannotEncode (name : List Char)
deriving DecidableEq

/-- Embedding of `saveImage` under the fault model: on create failure report
and return (the frame is skipped); on encode failure the file was created,
the failure is reported and the file is removed; on success the file is
created and kept.  `saveImage` never aborts the process. -/
def saveImage (fate : FileFate) (filename : List Char) : List FsEvent :=
  match fate with
  | FileFate.createFail => [FsEvent.msgCannotCreate filename]
  | FileFate.encodeFail =>
      [FsEvent.fileCreated filename, FsEvent.msgCannotEncode filename,
       FsEvent.fileRemoved filename]
  | FileFate.ok => [FsEvent.fileCreated filename]

/-- The event trace of a whole `explode` run in which the fate of each
output file is given by `fate` (keyed by filename). -/
def runTrace (a : Args) (img : Image) (fate : List Char → FileFate) : List FsEvent :=
  (explode a img).flatMap fun s => saveImage (fate s.filename) s.filename

/-- The files present after a trace, starting from `fs`: `fileCreated` adds
a name, `fileRemoved` (os.Remove) deletes it, messages change nothing. -/
def filesAfter : List FsEvent → List (List Char) → List (List Char)
  | [], fs => fs
  | FsEvent.fileCreated n :: es, fs => filesAfter es (fs ++ [n])
  | FsEvent.fileRemoved n :: es, fs => filesAfter es (fs.filter (fun m => decide (m ≠ n)))
  | FsEvent.msgCannotCreate _ :: es, fs => filesAfter es fs
  | FsEvent.msgCannotEncode _ :: es, fs => filesAfter es fs

/-- A 64×32 source image whose left half (frame `(0,0)`) is opaque white and
whose right half (frame `(0,1)`) is fully transparent. -/
def img2 : Image :=
  { rect := ⟨0, 0, 64, 32⟩
    pix := fun x _ => if x < 32 then ⟨255, 255, 255, 255⟩ else zeroColor }

/-- The arguments of a run `spritemap_explode -width 32 -height 32 img.png`. -/
def args2 : Args := ⟨"img".toList, 32, 32, 0, 0, false⟩

example : imageColumns args2 img2 = 2 := by decide
example : imageRows args2 img2 = 1 := by decide
example : (explode args2 img2).map (fun s => s.filename) = ["img-0-0.png".toList] := by decide

/-! ### Characterization of `imageMirrorY` -/

theorem setPix_rect (img : Image) (x y : Int) (c : Color) :
    (img.setPix x y c).rect = img.rect := by
  unfold Image.setPix; split <;> rfl

theorem setPix_pix (img : Image) (x y u v : Int) (c : Color) :
    (img.setPix x y c).pix u v =
      if inRect img.rect x y ∧ u = x ∧ v = y then c else img.pix u v := by
  unfold Image.setPix
  by_cases h : inRect img.rect x y <;> simp [h]

theorem foldl_setPix_rect (src : Image) (x mx : Int) (ys : List Int) (acc : Image) :
    (ys.foldl (fun a2 y => a2.setPix mx y (src.At x y)) acc).rect = acc.rect := by
  induction ys generalizing acc with
  | nil => rfl
  | cons y t ih => rw [List.foldl_cons, ih, setPix_rect]

theorem mirrorSetCol_rect (src : Image) (x mx : Int) (acc : Image) :
    (mirrorSetCol src x mx acc).rect = acc.rect :=
  foldl_setPix_rect src x mx _ acc

theorem foldl_setPix_pix (src : Image) (x mx : Int) (ys : List Int) (acc : Image) (u v : Int) :
    (ys.foldl (fun a2 y => a2.setPix mx y (src.At x y)) acc).pix u v =
      if u = mx ∧ v ∈ ys ∧ inRect acc.rect mx v then src.At x v else acc.pix u v := by
  induction ys generalizing acc with
  | nil => simp
  | cons y t ih =>
    rw [List.foldl_cons, ih, setPix_rect, setPix_pix]
    simp only [List.mem_cons]
    by_cases hu : u = mx <;> by_cases hvy : v = y <;>
      by_cases hin : inRect acc.rect mx v <;> by_cases hvt : v ∈ t <;>
      simp_all

theorem mirrorSetCol_pix (src : Image) (x mx : Int) (acc : Image) (u v : Int) :
    (mirrorSetCol src x mx acc).pix u v =
      if u = mx ∧ (src.rect.minY ≤ v ∧ v < src.rect.maxY) ∧ inRect acc.rect mx v
      then src.At x v else acc.pix u v := by
  unfold mirrorSetCol
  rw [foldl_setPix_pix]
  simp only [mem_intRange]

theorem foldl_mirror_rect (img : Image) (xs : List Int) (init : Image) :
    (xs.foldl
      (fun acc x => mirrorSetCol img x (img.rect.minX + img.rect.maxX - 1 - x) acc)
      init).rect = init.rect := by
  induction xs generalizing init with
  | nil => rfl
  | cons x t ih => rw [List.foldl_cons, ih, mirrorSetCol_rect]

theorem foldl_mirror_pix (img : Image) (xs : List Int) (init : Image)
    (hrect : init.rect = img.rect) (u v : Int) :
    (xs.foldl
      (fun acc x => mirrorSetCol img x (img.rect.minX + img.rect.maxX - 1 - x) acc)
      init).pix u v =
      if (img.rect.minX + img.rect.maxX - 1 - u) ∈ xs ∧
         (img.rect.minY ≤ v ∧ v < img.rect.maxY) ∧ inRect img.rect u v
      then img.At (img.rect.minX + img.rect.maxX - 1 - u) v
      else init.pix u v := by
  induction xs generalizing init with
  | nil => simp
  | cons x t ih =>
    rw [List.foldl_cons, ih _ (by rw [mirrorSetCol_rect, hrect]), mirrorSetCol_pix]
    rw [hrect]
    simp only [List.mem_cons]
    by_cases h1 : inRect img.rect u v
    · by_cases h2 : img.rect.minX + img.rect.maxX - 1 - u = x
      · have hux : u = img.rect.minX + img.rect.maxX - 1 - x := by omega
        have hAt : img.At x v = img.At (img.rect.minX + img.rect.maxX - 1 - u) v := by
          rw [h2]
        have h1x : inRect img.rect (img.rect.minX + img.rect.maxX - 1 - x) v := by
          rw [← hux]; exact h1
        have hyr : img.rect.minY ≤ v ∧ v < img.rect.maxY := by
          rcases h1 with ⟨_, _, h3, h4⟩; exact ⟨h3, h4⟩
        by_cases h5 : img.rect.minX + img.rect.maxX - 1 - u ∈ t <;>
          simp_all
      · have hux : ¬ u = img.rect.minX + img.rect.maxX - 1 - x := by omega
        by_cases h5 : img.rect.minX + img.rect.maxX - 1 - u ∈ t <;>
          simp_all
    · have : ¬ u = img.rect.minX + img.rect.maxX - 1 - x ∨
          ¬ inRect img.rect (img.rect.minX + img.rect.maxX - 1 - x) v := by
        by_cases h2 : u = img.rect.minX + img.rect.maxX - 1 - x
        · right; rw [← h2]; exact h1
        · left; exact h2
      rcases this with h2 | h2 <;> simp_all

theorem imageMirrorY_rect (img : Image) : (imageMirrorY img).rect = img.rect := by
  unfold imageMirrorY
  rw [foldl_mirror_rect]

theorem imageMirrorY_At (img : Image) (u v : Int) :
    (imageMirrorY img).At u v =
      if inRect img.rect u v then img.At (img.rect.minX + img.rect.maxX - 1 - u) v
      else zeroColor := by
  rw [Image.At, imageMirrorY_rect]
  by_cases h : inRect img.rect u v
  · rw [if_pos h, if_pos h]
    unfold imageMirrorY
    rw [foldl_mirror_pix img (intRange img.rect.minX img.rect.maxX)
      { rect := img.rect, pix := fun _ _ => zeroColor } rfl]
    have hc : (img.rect.minX + img.rect.maxX - 1 - u) ∈ intRange img.rect.minX img.rect.maxX ∧
        (img.rect.minY ≤ v ∧ v < img.rect.maxY) ∧ inRect img.rect u v := by
      rcases h with ⟨ha, hb, hcy, hd⟩
      exact ⟨mem_intRange.mpr (by omega), ⟨hcy, hd⟩, ⟨ha, hb, hcy, hd⟩⟩
    rw [if_pos hc]
  · rw [if_neg h, if_neg h]

/-! ### Characterization of `imageEmpty` and of the pixels it visits -/

theorem imageEmpty_iff (img : Image) (hx : 0 ≤ img.rect.minX) (hy : 0 ≤ img.rect.minY) :
    imageEmpty img = true ↔ ∀ x y, inRect img.rect x y → (img.At x y).a = 0 := by
  unfold imageEmpty
  simp only [List.all_eq_true, mem_intRange, beq_iff_eq]
  constructor
  · intro h x y hin
    rcases hin with ⟨h1, h2, h3, h4⟩
    exact h x ⟨by omega, h2⟩ y ⟨by omega, h4⟩
  · intro h x hx2 y hy2
    by_cases hin : inRect img.rect x y
    · exact h x y hin
    · rw [Image.At, if_neg hin]; rfl

theorem takeThrough_subset {α : Type} (p : α → Bool) (l : List α) :
    ∀ a ∈ takeThrough p l, a ∈ l := by
  induction l with
  | nil => intro a ha; exact absurd ha (by simp [takeThrough])
  | cons x t ih =>
    intro a ha
    unfold takeThrough at ha
    by_cases hp : p x
    · rw [if_pos hp] at ha
      simp only [List.mem_singleton] at ha
      simp [ha]
    · rw [if_neg hp] at ha
      rcases List.mem_cons.mp ha with h | h
      · simp [h]
      · exact List.mem_cons_of_mem _ (ih a h)

theorem mem_scanOrder (img : Image) (q : Int × Int) :
    q ∈ scanOrder img ↔
      (0 ≤ q.1 ∧ q.1 < img.rect.maxX) ∧ (0 ≤ q.2 ∧ q.2 < img.rect.maxY) := by
  constructor
  · intro hq
    rcases List.mem_flatMap.mp hq with ⟨x, hx, hq2⟩
    rcases List.mem_map.mp hq2 with ⟨y, hy, rfl⟩
    exact ⟨mem_intRange.mp hx, mem_intRange.mp hy⟩
  · intro h
    exact List.mem_flatMap.mpr
      ⟨q.1, mem_intRange.mpr h.1, List.mem_map.mpr ⟨q.2, mem_intRange.mpr h.2, rfl⟩⟩

theorem imageEmptyVisited_bounds (img : Image) :
    ∀ p ∈ imageEmptyVisited img,
      (0 ≤ p.1 ∧ p.1 < img.rect.maxX) ∧ (0 ≤ p.2 ∧ p.2 < img.rect.maxY) :=
  fun p hp => (mem_scanOrder img p).mp (takeThrough_subset _ _ p hp)

/-! ### Decimal digits, padding, and filename injectivity -/

theorem digitChar_ne_hyphen (d : Nat) : digitChar d ≠ '-' := by
  unfold digitChar; split_ifs <;> decide

theorem digitVal_digitChar (d : Nat) (h : d < 10) : digitVal (digitChar d) = d := by
  interval_cases d <;> decide

theorem natDigitsFuel_ne_hyphen : ∀ (f n : Nat), ∀ c ∈ natDigitsFuel f n, c ≠ '-' := by
  intro f
  induction f with
  | zero =>
    intro n c hc
    simp only [natDigitsFuel, List.mem_singleton] at hc
    rw [hc]; exact digitChar_ne_hyphen n
  | succ f ih =>
    intro n c hc
    unfold natDigitsFuel at hc
    by_cases h : n < 10
    · rw [if_pos h] at hc
      simp only [List.mem_singleton] at hc
      rw [hc]; exact digitChar_ne_hyphen n
    · rw [if_neg h] at hc
      rcases List.mem_append.mp hc with h2 | h2
      · exact ih _ c h2
      · simp only [List.mem_singleton] at h2
        rw [h2]; exact digitChar_ne_hyphen (n % 10)

theorem natDigits_ne_hyphen (n : Nat) : ∀ c ∈ natDigits n, c ≠ '-' :=
  natDigitsFuel_ne_hyphen n n

theorem natDigitsFuel_foldl : ∀ (f n acc : Nat), n < 10 ^ (f + 1) →
    (natDigitsFuel f n).foldl (fun acc c => 10 * acc + digitVal c) acc =
      acc * 10 ^ (natDigitsFuel f n).length + n := by
  intro f
  induction f with
  | zero =>
    intro n acc h
    have h10 : n < 10 := by simpa using h
    simp [natDigitsFuel, digitVal_digitChar n h10]
    omega
  | succ f ih =>
    intro n acc h
    unfold natDigitsFuel
    by_cases hn : n < 10
    · rw [if_pos hn]
      simp [digitVal_digitChar n hn]
      omega
    · rw [if_neg hn]
      have hdiv : n / 10 < 10 ^ (f + 1) := by
        have hp : (10 : Nat) ^ (f + 1 + 1) = 10 ^ (f + 1) * 10 := pow_succ 10 (f + 1)
        rw [hp] at h
        omega
      rw [List.foldl_append, ih (n / 10) acc hdiv]
      simp only [List.foldl_cons, List.foldl_nil, List.length_append, List.length_singleton]
      rw [digitVal_digitChar (n % 10) (Nat.mod_lt n (by norm_num))]
      rw [pow_succ, ← mul_assoc]
      generalize acc * 10 ^ (natDigitsFuel f (n / 10)).length = A
      omega

theorem decValue_natDigits (n : Nat) : decValue (natDigits n) = n := by
  have hlt : n < 10 ^ (n + 1) := by
    calc n < 10 ^ n := Nat.lt_pow_self (by norm_num) n
    _ ≤ 10 ^ (n + 1) := Nat.pow_le_pow_right (by norm_num) (Nat.le_succ n)
  unfold decValue natDigits
  rw [natDigitsFuel_foldl n n 0 hlt]
  simp

theorem pad0_ne_hyphen (w n : Nat) : ∀ c ∈ pad0 w n, c ≠ '-' := by
  intro c hc
  rcases List.mem_append.mp hc with h | h
  · rw [List.eq_of_mem_replicate h]; decide
  · exact natDigits_ne_hyphen n c h

theorem foldl_zeros (k : Nat) :
    (List.replicate k '0').foldl (fun acc c => 10 * acc + digitVal c) 0 = 0 := by
  induction k with
  | zero => rfl
  | succ k ih => simpa [List.replicate_succ] using ih

theorem decValue_pad0 (w n : Nat) : decValue (pad0 w n) = n := by
  unfold pad0 decValue
  rw [List.foldl_append, foldl_zeros]
  exact decValue_natDigits n

theorem pad0_inj (w a b : Nat) (h : pad0 w a = pad0 w b) : a = b := by
  have h2 := congrArg decValue h
  rwa [decValue_pad0, decValue_pad0] at h2

theorem append_hyphen_inj : ∀ (a b u v : List Char),
    (∀ c ∈ a, c ≠ '-') → (∀ c ∈ b, c ≠ '-') →
    a ++ '-' :: u = b ++ '-' :: v → a = b ∧ u = v := by
  intro a
  induction a with
  | nil =>
    intro b u v _ hb h
    cases b with
    | nil =>
      simp only [List.nil_append, List.cons.injEq, true_and] at h
      exact ⟨rfl, h⟩
    | cons x t =>
      simp only [List.nil_append, List.cons_append, List.cons.injEq] at h
      exact absurd h.1.symm (hb x (by simp))
  | cons x t ih =>
    intro b u v ha hb h
    cases b with
    | nil =>
      simp only [List.cons_append, List.nil_append, List.cons.injEq] at h
      exact absurd h.1 (ha x (by simp))
    | cons y s =>
      simp only [List.cons_append, List.cons.injEq] at h
      obtain ⟨hxy, h2⟩ := h
      obtain ⟨hts, huv⟩ := ih s u v (fun c hc => ha c (by simp [hc]))
        (fun c hc => hb c (by simp [hc])) h2
      exact ⟨by rw [hxy, hts], huv⟩

theorem frameFilename_inj (pfx : List Char) (yD xD r1 c1 r2 c2 : Nat)
    (h : frameFilename pfx yD xD r1 c1 = frameFilename pfx yD xD r2 c2) :
    r1 = r2 ∧ c1 = c2 := by
  unfold frameFilename at h
  have h2 := List.append_cancel_left h
  simp only [List.cons.injEq, true_and] at h2
  obtain ⟨hR, hC⟩ := append_hyphen_inj _ _ _ _ (pad0_ne_hyphen yD r1) (pad0_ne_hyphen yD r2) h2
  exact ⟨pad0_inj yD r1 r2 hR, pad0_inj xD c1 c2 (List.append_cancel_right hC)⟩

theorem frameFilenameMirror_inj (pfx : List Char) (yD xD : Nat) (s1 s2 : Char)
    (r1 c1 r2 c2 : Nat)
    (h : frameFilenameMirror pfx yD xD s1 r1 c1 = frameFilenameMirror pfx yD xD s2 r2 c2) :
    s1 = s2 ∧ r1 = r2 ∧ c1 = c2 := by
  unfold frameFilenameMirror at h
  have h2 := List.append_cancel_left h
  simp only [List.cons.injEq, true_and] at h2
  obtain ⟨hside, h3⟩ := h2
  obtain ⟨hR, hC⟩ := append_hyphen_inj _ _ _ _ (pad0_ne_hyphen yD r1) (pad0_ne_hyphen yD r2) h3
  exact ⟨hside, pad0_inj yD r1 r2 hR, pad0_inj xD c1 c2 (List.append_cancel_right hC)⟩

/-! ### `ceilLog10` is the least `d` with `n ≤ 10 ^ d` -/

theorem ceilLog10Fuel_le_pow : ∀ (f n : Nat), n ≤ 10 ^ f → n ≤ 10 ^ ceilLog10Fuel f n := by
  intro f
  induction f with
  | zero => intro n h; exact h
  | succ f ih =>
    intro n h
    unfold ceilLog10Fuel
    by_cases hn : n ≤ 1
    · rw [if_pos hn]; simpa using hn
    · rw [if_neg hn]
      have hp : (10 : Nat) ^ (f + 1) = 10 ^ f * 10 := pow_succ 10 f
      have hm : (n + 9) / 10 ≤ 10 ^ f := by rw [hp] at h; omega
      have := ih ((n + 9) / 10) hm
      have hp2 : (10 : Nat) ^ (1 + ceilLog10Fuel f ((n + 9) / 10)) =
          10 * 10 ^ ceilLog10Fuel f ((n + 9) / 10) := by
        rw [pow_add, pow_one]
      rw [hp2]
      omega

theorem ceilLog10Fuel_min : ∀ (f n d : Nat), n ≤ 10 ^ d → ceilLog10Fuel f n ≤ d := by
  intro f
  induction f with
  | zero => intro n d _; exact Nat.zero_le d
  | succ f ih =>
    intro n d h
    unfold ceilLog10Fuel
    by_cases hn : n ≤ 1
    · rw [if_pos hn]; exact Nat.zero_le d
    · rw [if_neg hn]
      cases d with
      | zero => simp at h; omega
      | succ d2 =>
        have hp : (10 : Nat) ^ (d2 + 1) = 10 ^ d2 * 10 := pow_succ 10 d2
        have hm : (n + 9) / 10 ≤ 10 ^ d2 := by rw [hp] at h; omega
        have := ih ((n + 9) / 10) d2 hm
        omega

theorem ceilLog10_le_pow (n : Nat) : n ≤ 10 ^ ceilLog10 n :=
  ceilLog10Fuel_le_pow n n (le_of_lt (Nat.lt_pow_self (by norm_num) n))

theorem ceilLog10_min (n d : Nat) (h : n ≤ 10 ^ d) : ceilLog10 n ≤ d :=
  ceilLog10Fuel_min n n d h

/-! ### The claims -/

/-- A fully transparent frame view with bounds `[32,64) × [0,32)` — the
sub-image `explode` extracts for grid cell `(0, 1)` of a transparent-right
64×32 sprite map. -/
def cImg1 : Image := { rect := ⟨32, 0, 64, 32⟩, pix := fun _ _ => zeroColor }

/-- C1, counterexample: the claim says `imageEmpty` visits only pixels of
the frame's bounding rectangle, but on the frame view with bounds
`[32,64) × [0,32)` the loop visits pixel `(0, 0)`, which lies outside that
rectangle (the loops start at 0, not at `Bounds().Min`). -/
theorem claim1_counterexample :
    ((0 : Int), (0 : Int)) ∈ imageEmptyVisited cImg1 ∧ ¬ inRect cImg1.rect 0 0 :=
  ⟨by decide, by decide⟩

/-- C1, amended: `imageEmpty` returns `true` iff every pixel inside the
frame's bounding rectangle has alpha 0 (for the frame views arising here,
whose bounds have nonnegative `Min`), but it visits the pixels of
`[0, Max.X) × [0, Max.Y)`, a superset of the frame's bounding rectangle
(the classification is unaffected because `At` reads alpha 0 outside the
bounds); a frame classified empty produces zero save calls, and a non-empty
frame produces exactly one (two when mirroring is enabled). -/
theorem claim1_amended (img : Image) (hx : 0 ≤ img.rect.minX) (hy : 0 ≤ img.rect.minY)
    (a : Args) (src : Image) (fw fh : Int) (yD xD : Nat) (row col : Int) :
    (imageEmpty img = true ↔ ∀ x y, inRect img.rect x y → (img.At x y).a = 0) ∧
    (∀ p ∈ imageEmptyVisited img,
      (0 ≤ p.1 ∧ p.1 < img.rect.maxX) ∧ (0 ≤ p.2 ∧ p.2 < img.rect.maxY)) ∧
    (explodeCell a src fw fh yD xD row col).length =
      (if imageEmpty (subImage src
          (mkRect (col * fw) (row * fh) (col * fw + fw) (row * fh + fh))) = true
       then 0 else if a.mirrorLeft then 2 else 1) := by
  refine ⟨imageEmpty_iff img hx hy, imageEmptyVisited_bounds img, ?_⟩
  simp only [explodeCell]
  by_cases he : imageEmpty (subImage src
      (mkRect (col * fw) (row * fh) (col * fw + fw) (row * fh + fh))) = true
  · simp [he]
  · by_cases hm : a.mirrorLeft <;> simp [he, hm]

/-- Witness for C1: the save-call count, evaluated for grid cell `(0, 1)` of
the concrete 64×32 run (that frame is fully transparent, so the count is 0). -/
theorem claim1_witness :
    (explodeCell args2 img2 32 32 0 1 0 1).length =
      (if imageEmpty (subImage img2
          (mkRect (1 * 32) (0 * 32) (1 * 32 + 32) (0 * 32 + 32))) = true
       then 0 else if args2.mirrorLeft then 2 else 1) :=
  (claim1_amended cImg1 (by decide) (by decide) args2 img2 32 32 0 1 0 1).2.2

/-- C2: the 64×32 source with `-width 32 -height 32`, frame `(0,0)` opaque
and frame `(0,1)` fully transparent, yields a 2×1 grid and exactly one save
call, for the file `img-0-0.png`. -/
theorem claim2_scenario :
    imageColumns args2 img2 = 2 ∧ imageRows args2 img2 = 1 ∧
    (explode args2 img2).map (fun s => s.filename) = ["img-0-0.png".toList] :=
  ⟨by decide, by decide, by decide⟩

/-- A successfully decoded image whose dynamic type has no `SubImage` method. -/
def decoded3 : Decoded := ⟨img2, false⟩

/-- An invocation with valid arguments whose source opens and decodes, but
decodes to a type that does not support sub-region extraction. -/
def inp3 : ProcInput := ⟨1, args2, true, true, decoded3⟩

/-- C3: when the decoded type does not implement `SubImage`, the program is
specified to print a message and exit with status 4, but the single-result
type assertion `img.(SpriteMap)` panics before the (dead) nil check, so the
run ends in a Go run-time panic, without the message and not with status 4. -/
theorem claim3_code_bug :
    runMain inp3 = (RunOutcome.panicked, []) ∧
    (runMain inp3).1 ≠ RunOutcome.exited 4 ∧
    ErrOut.msgNoSubImage ∉ (runMain inp3).2 := by
  have h : runMain inp3 = (RunOutcome.panicked, []) := rfl
  refine ⟨h, ?_, ?_⟩
  · rw [h]; intro hc; exact RunOutcome.noConfusion hc
  · rw [h]; exact List.not_mem_nil _

/-- A 1×1 image whose bounds start at x = 1 (as frame views do for every
grid cell other than the leftmost column), with an opaque pixel. -/
def img5 : Image := { rect := ⟨1, 0, 2, 1⟩, pix := fun _ _ => ⟨255, 255, 255, 255⟩ }

/-- C5, counterexample: the claim says output column `x` holds input column
`maxX - 1 - x`; on an image with bounds `[1,2) × [0,1)` the mirrored image's
column 1 holds input column 1 (`minX + maxX - 1 - x`), not input column 0
(`maxX - 1 - x`), which is outside the bounds and reads as the zero colour. -/
theorem claim5_counterexample :
    (imageMirrorY img5).At 1 0 ≠ img5.At (img5.rect.maxX - 1 - 1) 0 := by decide

/-- C5, amended: `imageMirrorY` produces a new image with bounds identical
to the input's, in which column `x` holds the pixel data of input column
`minX + maxX - 1 - x` (equal to the claimed `maxX - 1 - x` only when
`minX = 0`), rows unchanged; it reads the input only through `At` and is a
pure function of it. -/
theorem claim5_amended (img : Image) (x y : Int) :
    (imageMirrorY img).rect = img.rect ∧
    (imageMirrorY img).At x y =
      (if inRect img.rect x y then img.At (img.rect.minX + img.rect.maxX - 1 - x) y
       else zeroColor) :=
  ⟨imageMirrorY_rect img, imageMirrorY_At img x y⟩

/-- C6: mirroring is an involution — applying `imageMirrorY` twice
reproduces the original frame's bounds and pixel data exactly (`At` agrees
at every point). -/
theorem claim6_involution (img : Image) (x y : Int) :
    (imageMirrorY (imageMirrorY img)).rect = img.rect ∧
    (imageMirrorY (imageMirrorY img)).At x y = img.At x y := by
  refine ⟨by rw [imageMirrorY_rect, imageMirrorY_rect], ?_⟩
  rw [imageMirrorY_At, imageMirrorY_rect]
  by_cases h : inRect img.rect x y
  · rw [if_pos h, imageMirrorY_At]
    have h2 : inRect img.rect (img.rect.minX + img.rect.maxX - 1 - x) y := by
      rcases h with ⟨a1, a2, a3, a4⟩
      exact ⟨by omega, by omega, a3, a4⟩
    rw [if_pos h2]
    have h3 : img.rect.minX + img.rect.maxX - 1 -
        (img.rect.minX + img.rect.maxX - 1 - x) = x := by ring
    rw [h3]
  · rw [if_neg h, Image.At, if_neg h]

theorem parseChecks_fail (nArg : Nat) (a : Args)
    (h : nArg ≠ 1 ∨ (a.frameHeight = 0 ∧ a.rows = 0) ∨ (a.frameWidth = 0 ∧ a.columns = 0)) :
    ∃ errs, parseChecks nArg a = (false, errs) ∧
      ((nArg ≠ 1 ∨ (a.frameHeight = 0 ∧ a.rows = 0)) → ErrOut.usage ∈ errs) ∧
      (nArg = 1 → ¬(a.frameHeight = 0 ∧ a.rows = 0) →
        errs = [ErrOut.msgNeedWidthColumns]) := by
  unfold parseChecks
  by_cases h1 : nArg ≠ 1
  · rw [if_pos h1]
    exact ⟨[ErrOut.usage], rfl, fun _ => by simp, fun h2 => absurd h2 h1⟩
  · rw [if_neg h1]
    by_cases h2 : a.frameHeight = 0 ∧ a.rows = 0
    · rw [if_pos h2]
      exact ⟨[ErrOut.msgNeedHeightRows, ErrOut.usage], rfl, fun _ => by simp,
        fun _ h3 => absurd h2 h3⟩
    · rcases h with h3 | h3 | h3
      · exact absurd h3 h1
      · exact absurd h3 h2
      · rw [if_neg h2, if_pos h3]
        exact ⟨[ErrOut.msgNeedWidthColumns], rfl,
          fun hc => absurd hc (by simp [h1, h2]), fun _ _ => rfl⟩

/-- C4, counterexample: with one source argument, `-height 32` set, and both
`-width` and `-columns` zero, the program exits with status 1 but prints only
the "Need to set either -width or -columns" message — not the usage text
(that validation branch, unlike the height/rows one, never calls
`flag.Usage()`). -/
theorem claim4_counterexample :
    runMain ⟨1, ⟨"img".toList, 0, 32, 0, 0, false⟩, true, true, ⟨img2, true⟩⟩ =
      (RunOutcome.exited 1, [ErrOut.msgNeedWidthColumns]) ∧
    ErrOut.usage ∉ [ErrOut.msgNeedWidthColumns] :=
  ⟨rfl, by decide⟩

/-- C4, amended: whenever the argument count is not exactly one, or both
`-height` and `-rows` are zero, or both `-width` and `-columns` are zero,
the program exits with status 1 and performs no `explode` (hence writes no
output files); the usage text is printed in the first two cases, while in
the remaining width/columns case only the error message is printed. -/
theorem claim4_amended (inp : ProcInput)
    (h : inp.nArg ≠ 1 ∨ (inp.a.frameHeight = 0 ∧ inp.a.rows = 0) ∨
         (inp.a.frameWidth = 0 ∧ inp.a.columns = 0)) :
    ∃ errs, runMain inp = (RunOutcome.exited 1, errs) ∧
      ((inp.nArg ≠ 1 ∨ (inp.a.frameHeight = 0 ∧ inp.a.rows = 0)) → ErrOut.usage ∈ errs) ∧
      (inp.nArg = 1 → ¬(inp.a.frameHeight = 0 ∧ inp.a.rows = 0) →
        errs = [ErrOut.msgNeedWidthColumns]) := by
  obtain ⟨errs, hp, hu, hw⟩ := parseChecks_fail inp.nArg inp.a h
  refine ⟨errs, ?_, hu, hw⟩
  unfold runMain
  rw [hp]

/-- Witness for C4: the amended statement applied to the concrete
invocation of the counterexample. -/
theorem claim4_witness :
    ∃ errs, runMain ⟨1, ⟨"img".toList, 0, 32, 0, 0, false⟩, true, true, ⟨img2, true⟩⟩ =
        (RunOutcome.exited 1, errs) ∧
      (((1 : Nat) ≠ 1 ∨ ((32 : Nat) = 0 ∧ (0 : Nat) = 0)) → ErrOut.usage ∈ errs) ∧
      ((1 : Nat) = 1 → ¬((32 : Nat) = 0 ∧ (0 : Nat) = 0) →
        errs = [ErrOut.msgNeedWidthColumns]) :=
  claim4_amended ⟨1, ⟨"img".toList, 0, 32, 0, 0, false⟩, true, true, ⟨img2, true⟩⟩
    (Or.inr (Or.inr ⟨rfl, rfl⟩))

/-- C7: the filename template's numeric field widths are
`ceil(log10(columns))` digits for the column index and `ceil(log10(rows))`
digits for the row index — the first two conjuncts characterise
`ceilLog10 n` as the least `d` with `n ≤ 10 ^ d`, i.e. the mathematical
`ceil(log10 n)` for `n ≥ 1` — the template is built once per run, so every
file written in the run uses those same widths, and when mirroring is
enabled the side marker ('l' or 'r') sits immediately after the prefix,
before the row and column fields (the shape of `frameFilenameMirror`). -/
theorem claim7_format (a : Args) (img : Image)
    (_hr : 1 ≤ imageRows a img) (_hc : 1 ≤ imageColumns a img) :
    ((imageRows a img).toNat ≤ 10 ^ ceilLog10 (imageRows a img).toNat ∧
      ∀ d, (imageRows a img).toNat ≤ 10 ^ d → ceilLog10 (imageRows a img).toNat ≤ d) ∧
    ((imageColumns a img).toNat ≤ 10 ^ ceilLog10 (imageColumns a img).toNat ∧
      ∀ d, (imageColumns a img).toNat ≤ 10 ^ d → ceilLog10 (imageColumns a img).toNat ≤ d) ∧
    (∀ s ∈ explode a img, ∃ row col : Nat,
      (a.mirrorLeft = false → s.filename =
        frameFilename a.pfx (ceilLog10 (imageRows a img).toNat)
          (ceilLog10 (imageColumns a img).toNat) row col) ∧
      (a.mirrorLeft = true →
        s.filename = frameFilenameMirror a.pfx (ceilLog10 (imageRows a img).toNat)
          (ceilLog10 (imageColumns a img).toNat) 'r' row col ∨
        s.filename = frameFilenameMirror a.pfx (ceilLog10 (imageRows a img).toNat)
          (ceilLog10 (imageColumns a img).toNat) 'l' row col)) := by
  refine ⟨⟨ceilLog10_le_pow _, fun d => ceilLog10_min _ d⟩,
    ⟨ceilLog10_le_pow _, fun d => ceilLog10_min _ d⟩, ?_⟩
  intro s hs
  simp only [explode, List.mem_flatMap] at hs
  obtain ⟨row, _, col, _, hcell⟩ := hs
  simp only [explodeCell] at hcell
  split at hcell
  · exact absurd hcell (List.not_mem_nil s)
  · split at hcell
    · rename_i hm
      simp only [List.mem_cons, List.not_mem_nil, or_false] at hcell
      refine ⟨row.toNat, col.toNat, fun hf => absurd hm (by rw [hf]; exact Bool.false_ne_true),
        fun _ => ?_⟩
      rcases hcell with hcell | hcell <;> rw [hcell] <;> [left; right] <;> rfl
    · rename_i hm
      simp only [List.mem_singleton] at hcell
      refine ⟨row.toNat, col.toNat, fun _ => by rw [hcell], fun ht => absurd ht hm⟩

/-- Witness for C7: the width lower bound, evaluated for the concrete 2×1
run (one row needs `ceil(log10 1) = 0` digits). -/
theorem claim7_witness :
    (imageRows args2 img2).toNat ≤ 10 ^ ceilLog10 (imageRows args2 img2).toNat :=
  (claim7_format args2 img2 (by decide) (by decide)).1.1

/-- C8: within a run (fixed prefix and field widths, including width 0),
the map from grid cell — and side marker, when mirroring — to the output
filename is injective: distinct cells, or the same cell with different side
markers, never collide. -/
theorem claim8_injective (pfx : List Char) (yD xD : Nat) (s1 s2 : Char) (r1 c1 r2 c2 : Nat) :
    (frameFilename pfx yD xD r1 c1 = frameFilename pfx yD xD r2 c2 → r1 = r2 ∧ c1 = c2) ∧
    (frameFilenameMirror pfx yD xD s1 r1 c1 = frameFilenameMirror pfx yD xD s2 r2 c2 →
      s1 = s2 ∧ r1 = r2 ∧ c1 = c2) :=
  ⟨frameFilename_inj pfx yD xD r1 c1 r2 c2,
   frameFilenameMirror_inj pfx yD xD s1 s2 r1 c1 r2 c2⟩

/-- Witness for C8: the injectivity statement instantiated at concrete
filenames. -/
theorem claim8_witness :
    (frameFilename "img".toList 0 1 0 0 = frameFilename "img".toList 0 1 0 0 →
      (0 : Nat) = 0 ∧ (0 : Nat) = 0) ∧
    (frameFilenameMirror "img".toList 0 1 'r' 0 0 = frameFilenameMirror "img".toList 0 1 'r' 0 0 →
      'r' = 'r' ∧ (0 : Nat) = 0 ∧ (0 : Nat) = 0) :=
  claim8_injective "img".toList 0 1 'r' 'r' 0 0 0 0

/-! ### Per-file fault behaviour of `saveImage` within a run -/

theorem filesAfter_append (es1 es2 : List FsEvent) (fs : List (List Char)) :
    filesAfter (es1 ++ es2) fs = filesAfter es2 (filesAfter es1 fs) := by
  induction es1 generalizing fs with
  | nil => rfl
  | cons e t ih => cases e <;> simp only [List.cons_append, filesAfter] <;> exact ih _

theorem msgCreate_mem_saveImage (f : FileFate) (m n : List Char) :
    FsEvent.msgCannotCreate n ∈ saveImage f m ↔ (m = n ∧ f = FileFate.createFail) := by
  cases f <;> simp [saveImage, eq_comm]

theorem msgEncode_mem_saveImage (f : FileFate) (m n : List Char) :
    FsEvent.msgCannotEncode n ∈ saveImage f m ↔ (m = n ∧ f = FileFate.encodeFail) := by
  cases f <;> simp [saveImage, eq_comm]

theorem mem_filesAfter_saveImage (f : FileFate) (m n : List Char) (fs : List (List Char)) :
    (n ∈ filesAfter (saveImage f m) fs ↔
      ((n ∈ fs ∨ (n = m ∧ f = FileFate.ok)) ∧ ¬(n = m ∧ f = FileFate.encodeFail))) := by
  cases f <;>
    simp [saveImage, filesAfter, List.mem_filter, List.mem_append]

theorem mem_filesAfter_run (fate : List Char → FileFate) (n : List Char) :
    ∀ (calls : List SaveCall) (fs : List (List Char)),
      (n ∈ filesAfter (calls.flatMap fun s => saveImage (fate s.filename) s.filename) fs ↔
        ((n ∈ calls.map (fun s => s.filename) ∧ fate n = FileFate.ok) ∨
         (n ∈ fs ∧ ¬(n ∈ calls.map (fun s => s.filename) ∧ fate n = FileFate.encodeFail)))) := by
  intro calls
  induction calls with
  | nil => intro fs; simp [filesAfter]
  | cons s t ih =>
    intro fs
    rw [List.flatMap_cons, filesAfter_append, ih, mem_filesAfter_saveImage]
    simp only [List.map_cons, List.mem_cons]
    by_cases hn : n = s.filename
    · rw [← hn]
      cases hfn : fate n <;> simp [hfn]
    · simp [hn]

/-- C9: per-output-file failures are contained.  For every run and every
assignment of fates to output files: a file exists at the end of the run
exactly when its frame was saved and both create and encode succeeded (so an
encode-failed, partially written file is deleted and a create-failed file is
skipped), a create failure is reported exactly for the files whose create
fails, an encode failure likewise — and all of this holds per file
independently of every other frame's fate, so a single failed write never
terminates the run or affects other frames' outputs. -/
theorem claim9_faults (a : Args) (img : Image) (fate : List Char → FileFate) (n : List Char) :
    (n ∈ filesAfter (runTrace a img fate) [] ↔
      (n ∈ (explode a img).map (fun s => s.filename) ∧ fate n = FileFate.ok)) ∧
    (FsEvent.msgCannotCreate n ∈ runTrace a img fate ↔
      (n ∈ (explode a img).map (fun s => s.filename) ∧ fate n = FileFate.createFail)) ∧
    (FsEvent.msgCannotEncode n ∈ runTrace a img fate ↔
      (n ∈ (explode a img).map (fun s => s.filename) ∧ fate n = FileFate.encodeFail)) := by
  refine ⟨?_, ?_, ?_⟩
  · rw [runTrace, mem_filesAfter_run]
    simp
  · rw [runTrace]
    simp only [List.mem_flatMap, msgCreate_mem_saveImage, List.mem_map]
    constructor
    · rintro ⟨s, hs, rfl, hf⟩
      exact ⟨⟨s, hs, rfl⟩, hf⟩
    · rintro ⟨⟨s, hs, rfl⟩, hf⟩
      exact ⟨s, hs, rfl, hf⟩
  · rw [runTrace]
    simp only [List.mem_flatMap, msgEncode_mem_saveImage, List.mem_map]
    constructor
    · rintro ⟨s, hs, rfl, hf⟩
      exact ⟨⟨s, hs, rfl⟩, hf⟩
    · rintro ⟨⟨s, hs, rfl⟩, hf⟩
      exact ⟨s, hs, rfl, hf⟩

/-- Witness for C9: in the concrete 2×1 run with every create failing, the
create failure of `img-0-0.png` is reported. -/
theorem claim9_witness :
    FsEvent.msgCannotCreate "img-0-0.png".toList ∈
      runTrace args2 img2 (fun _ => FileFate.createFail) :=
  ((claim9_faults args2 img2 (fun _ => FileFate.createFail) "img-0-0.png".toList).2.1).mpr
    ⟨by decide, rfl⟩

theorem rectIntersect_disjoint (r b : Rect)
    (h : ∀ x y, inRect r x y → ¬ inRect b x y) :
    rectIntersect r b = ⟨0, 0, 0, 0⟩ := by
  simp only [rectIntersect]
  split
  · rfl
  · rename_i he
    exfalso
    have he2 : ¬(min r.maxX b.maxX ≤ max r.minX b.minX ∨
        min r.maxY b.maxY ≤ max r.minY b.minY) := he
    push_neg at he2
    obtain ⟨hex, hey⟩ := he2
    exact h (max r.minX b.minX) (max r.minY b.minY)
      ⟨le_max_left _ _, by omega, le_max_left _ _, by omega⟩
      ⟨le_max_right _ _, by omega, le_max_right _ _, by omega⟩

/-- C10: a grid cell whose declared frame rectangle lies entirely outside
the source bounds yields a sub-image with the empty (zero) bounding
rectangle, which `imageEmpty` classifies as empty, so the cell produces no
save call. -/
theorem claim10_outside (a : Args) (img : Image) (fw fh : Int) (yD xD : Nat) (row col : Int)
    (h : ∀ x y, inRect (mkRect (col * fw) (row * fh) (col * fw + fw) (row * fh + fh)) x y →
      ¬ inRect img.rect x y) :
    (subImage img (mkRect (col * fw) (row * fh) (col * fw + fw) (row * fh + fh))).rect =
      ⟨0, 0, 0, 0⟩ ∧
    imageEmpty (subImage img
      (mkRect (col * fw) (row * fh) (col * fw + fw) (row * fh + fh))) = true ∧
    explodeCell a img fw fh yD xD row col = [] := by
  have hri := rectIntersect_disjoint _ img.rect h
  have hsub : subImage img (mkRect (col * fw) (row * fh) (col * fw + fw) (row * fh + fh)) =
      { rect := ⟨0, 0, 0, 0⟩, pix := fun _ _ => zeroColor } := by
    simp only [subImage]
    rw [hri]
    rw [if_pos (by decide)]
  refine ⟨by rw [hsub], by rw [hsub]; decide, ?_⟩
  simp only [explodeCell]
  rw [hsub]
  simp [show imageEmpty { rect := (⟨0, 0, 0, 0⟩ : Rect), pix := fun _ _ => zeroColor } = true
    from by decide]

/-- Witness for C10: grid cell `(0, 5)` of the 64×32 run lies entirely
outside the source bounds and produces no save call. -/
theorem claim10_witness :
    explodeCell args2 img2 32 32 0 1 0 5 = [] :=
  (claim10_outside args2 img2 32 32 0 1 0 5 (by
    intro x y h1 h2
    rcases h1 with ⟨a1, _, _, _⟩
    rcases h2 with ⟨_, b2, _, _⟩
    have hmin : (mkRect (5 * 32) (0 * 32) (5 * 32 + 32) (0 * 32 + 32)).minX = 160 := by decide
    have hmax : img2.rect.maxX = 64 := rfl
    rw [hmin] at a1
    rw [hmax] at b2
    omega)).2.2
